import Mathlib

/-!
Verification of the sparse volume-to-surface mapper (`cortex/mapper.py`).

Coordinates are embedded as exact rationals; machine integers as `Int`/`Nat`.
The grid shape is stored in (Z, Y, X) order, as `self.shape` is in the source
(the native volume shape reversed).  Fallible paths are embedded with
`Except`/`Option`.
-/

/-- Grid shape in (Z, Y, X) axis order, mirroring `self.shape`. -/
structure Grid3 where
  z : Nat
  y : Nat
  x : Nat
deriving DecidableEq, Repr

/-- Embeds `np.mod(q, 2)` for a rational input: the remainder of `q` modulo 2,
always in `[0, 2)`. -/
def npMod2 (q : ℚ) : ℚ := q - 2 * ⌊q / 2⌋

/-- Embeds `np.around` on an exact rational: round half to even. -/
def npAround (q : ℚ) : ℤ :=
  if Int.fract q = 1 / 2 then (if 2 ∣ ⌊q⌋ then ⌊q⌋ else ⌊q⌋ + 1) else round q

/-- Embeds the rounding expression of `Nearest._getmask`:
`np.where(np.mod(coords, 2) == 0.5, np.ceil(coords), np.around(coords))`. -/
def nearestRound (q : ℚ) : ℤ :=
  if npMod2 q = 1 / 2 then ⌈q⌉ else npAround q

/-- Embeds one axis of `np.ravel_multi_index(..., mode='clip')`: clip an
integer index into `[0, n-1]` and return it as a `Nat`. -/
def clipIdx (i : ℤ) (n : Nat) : Nat := (max 0 (min i ((n : ℤ) - 1))).toNat

/-- Embeds `np.ravel_multi_index((z, y, x), self.shape, mode='clip')` for the
(Z, Y, X)-ordered grid. -/
def nearestRavel (g : Grid3) (cz cy cx : ℤ) : Nat :=
  (clipIdx cz g.z * g.y + clipIdx cy g.y) * g.x + clipIdx cx g.x

/-- Embeds the validity test of `Nearest._getmask`: each rounded component is
checked against its own extent (`x` against `shape[2]`, `y` against
`shape[1]`, `z` against `shape[0]`).  A coordinate triple is `(x, y, z)`, one
row of `coords`. -/
def nearestValid (g : Grid3) (c : ℚ × ℚ × ℚ) : Bool :=
  let cx := nearestRound c.1
  let cy := nearestRound c.2.1
  let cz := nearestRound c.2.2
  decide (0 ≤ cx ∧ cx < (g.x : ℤ)) && decide (0 ≤ cy ∧ cy < (g.y : ℤ)) &&
    decide (0 ≤ cz ∧ cz < (g.z : ℤ))

/-- Embeds the row of the boolean CSR operator built by `Nearest._getmask` for
one vertex: entry `j` is true exactly when the vertex is valid and `j` is its
clipped ravel index. -/
def nearestRow (g : Grid3) (c : ℚ × ℚ × ℚ) (j : Nat) : Bool :=
  nearestValid g c &&
    j == nearestRavel g (nearestRound c.2.2) (nearestRound c.2.1) (nearestRound c.1)

/-- Round half up, the rounding rule the specification describes for the
nearest-neighbor kernel: nearest integer, ties by ceiling. -/
def roundHalfUp (q : ℚ) : ℤ := ⌊q + 1 / 2⌋

/-- Reversed-axis linear indexing as the specification words it, with no
clipping: the flat index of in-range voxel `(z, y, x)`. -/
def specRavel (g : Grid3) (z y x : Nat) : Nat := (z * g.y + y) * g.x + x

/-- The nearest-neighbor row as the specification words it: round each
component half-up, require every rounded axis in `[0, extent)`, and place a
single true entry at the reversed-axis flat index; otherwise an all-zero
row. -/
def nearestRowSpec (g : Grid3) (c : ℚ × ℚ × ℚ) (j : Nat) : Bool :=
  let rx := roundHalfUp c.1
  let ry := roundHalfUp c.2.1
  let rz := roundHalfUp c.2.2
  if 0 ≤ rx ∧ rx < (g.x : ℤ) ∧ 0 ≤ ry ∧ ry < (g.y : ℤ) ∧ 0 ≤ rz ∧ rz < (g.z : ℤ) then
    j == specRavel g rz.toNat ry.toNat rx.toNat
  else
    false

/-- Floor of one half. -/
theorem floor_half_rat : ⌊(1 / 2 : ℚ)⌋ = 0 := by
  rw [Int.floor_eq_iff]
  norm_num

/-- Ceiling of one half. -/
theorem ceil_half_rat : ⌈(1 / 2 : ℚ)⌉ = 1 := by
  rw [Int.ceil_eq_iff]
  norm_num

/-- A rational whose `np.mod`-by-2 remainder is exactly one half has
fractional part one half and an even floor. -/
theorem npMod2_eq_half_iff (q : ℚ) :
    npMod2 q = 1 / 2 ↔ Int.fract q = 1 / 2 ∧ 2 ∣ ⌊q⌋ := by
  constructor
  · intro h
    unfold npMod2 at h
    have hq : q = 2 * (⌊q / 2⌋ : ℚ) + 1 / 2 := by linarith
    have hfl : ⌊q⌋ = 2 * ⌊q / 2⌋ := by
      have h2 : q = 1 / 2 + ((2 * ⌊q / 2⌋ : ℤ) : ℚ) := by push_cast; linarith
      conv_lhs => rw [h2]
      rw [Int.floor_add_int, floor_half_rat, zero_add]
    refine ⟨?_, ⟨⌊q / 2⌋, hfl⟩⟩
    rw [← Int.self_sub_floor, hfl]
    push_cast
    linarith
  · rintro ⟨hf, k, hk⟩
    have hq : q = 2 * (k : ℚ) + 1 / 2 := by
      have h0 := Int.floor_add_fract q
      rw [hf, hk] at h0
      push_cast at h0
      linarith
    unfold npMod2
    have hfl : ⌊q / 2⌋ = k := by
      have h1 : q / 2 = 1 / 4 + (k : ℚ) := by rw [hq]; ring
      have h2 : ⌊(1 / 4 : ℚ)⌋ = 0 := by rw [Int.floor_eq_iff]; norm_num
      rw [h1, Int.floor_add_int, h2, zero_add]
    rw [hfl, hq]
    ring

/-- For a rational with fractional part one half, flooring after adding one
half lands one above the floor. -/
theorem floor_add_half_of_fract_half (q : ℚ) (h : Int.fract q = 1 / 2) :
    ⌊q + 1 / 2⌋ = ⌊q⌋ + 1 := by
  have h0 := Int.floor_add_fract q
  rw [h] at h0
  have hq : q + 1 / 2 = ((⌊q⌋ + 1 : ℤ) : ℚ) := by push_cast; linarith
  rw [hq, Int.floor_intCast]

/-- For a rational with fractional part one half, the ceiling is one above the
floor. -/
theorem ceil_of_fract_half (q : ℚ) (h : Int.fract q = 1 / 2) :
    ⌈q⌉ = ⌊q⌋ + 1 := by
  have h0 := Int.floor_add_fract q
  rw [h] at h0
  have hq : q = 1 / 2 + ((⌊q⌋ : ℤ) : ℚ) := by linarith
  conv_lhs => rw [hq]
  rw [Int.ceil_add_int, ceil_half_rat]
  omega

/-- The rounding expression of `Nearest._getmask` agrees with round-half-up at
every rational: ties (fractional part exactly one half) go up, everything
else to the nearest integer. -/
theorem nearestRound_eq_roundHalfUp (q : ℚ) : nearestRound q = roundHalfUp q := by
  unfold nearestRound npAround roundHalfUp
  by_cases h : npMod2 q = 1 / 2
  · rw [if_pos h]
    obtain ⟨hf, _⟩ := (npMod2_eq_half_iff q).1 h
    rw [ceil_of_fract_half q hf, floor_add_half_of_fract_half q hf]
  · rw [if_neg h]
    by_cases hf : Int.fract q = 1 / 2
    · rw [if_pos hf]
      have hodd : ¬ 2 ∣ ⌊q⌋ := fun hd => h ((npMod2_eq_half_iff q).2 ⟨hf, hd⟩)
      rw [if_neg hodd, floor_add_half_of_fract_half q hf]
    · rw [if_neg hf, round_eq]

/-- Clipping is the identity on an in-range index. -/
theorem clipIdx_of_range (i : ℤ) (n : Nat) (h0 : 0 ≤ i) (h1 : i < (n : ℤ)) :
    clipIdx i n = i.toNat := by
  unfold clipIdx
  omega

/-- The rounding expression of `Nearest._getmask` is the identity on integer
coordinates. -/
theorem nearestRound_intCast (n : ℤ) : nearestRound ((n : ℤ) : ℚ) = n := by
  have hfl : ⌊((n : ℤ) : ℚ) / 2⌋ = n / 2 := by
    simpa using Rat.floor_intCast_div_natCast n 2
  unfold nearestRound npMod2 npAround
  rw [hfl]
  have hmod : ((n : ℚ) - 2 * ((n / 2 : ℤ) : ℚ)) = ((n - 2 * (n / 2) : ℤ) : ℚ) := by
    push_cast
    ring
  rw [hmod]
  have hne : ((n - 2 * (n / 2) : ℤ) : ℚ) ≠ 1 / 2 := by
    intro hcontra
    have h0 : ((2 * (n - 2 * (n / 2)) : ℤ) : ℚ) = 1 := by push_cast; linarith
    have h1 : (2 * (n - 2 * (n / 2)) : ℤ) = 1 := by exact_mod_cast h0
    omega
  rw [if_neg hne, Int.fract_intCast, if_neg (by norm_num), round_intCast]

/-- C1: the nearest-neighbor kernel row equals the specification row at every
grid, coordinate and column: each component is rounded to the nearest integer
with ties going up (ceiling), a vertex is valid exactly when every rounded
axis lies in `[0, extent)`, a valid vertex puts its single true entry at the
axis-reversed flat index, and an invalid vertex has an all-zero row; in
particular coordinate `(2, 3, 4)` in a `(10, 10, 10)` grid hits flat index
`432`, the ravel index of `(4, 3, 2)`. -/
theorem nearest_kernel_matches_spec :
    (∀ (g : Grid3) (c : ℚ × ℚ × ℚ) (j : Nat), nearestRow g c j = nearestRowSpec g c j) ∧
    nearestRow ⟨10, 10, 10⟩ (2, 3, 4) 432 = true := by
  constructor
  · intro g c j
    obtain ⟨cx, cy, cz⟩ := c
    unfold nearestRow nearestRowSpec nearestValid nearestRavel specRavel
    simp only [nearestRound_eq_roundHalfUp]
    by_cases hx : 0 ≤ roundHalfUp cx ∧ roundHalfUp cx < (g.x : ℤ)
    · by_cases hy : 0 ≤ roundHalfUp cy ∧ roundHalfUp cy < (g.y : ℤ)
      · by_cases hz : 0 ≤ roundHalfUp cz ∧ roundHalfUp cz < (g.z : ℤ)
        · rw [clipIdx_of_range _ _ hx.1 hx.2, clipIdx_of_range _ _ hy.1 hy.2,
            clipIdx_of_range _ _ hz.1 hz.2]
          simp [hx.1, hx.2, hy.1, hy.2, hz.1, hz.2]
        · simp [hx.1, hx.2, hy.1, hy.2, hz]
      · simp [hx.1, hx.2, hy]
        intro h1 h2
        exact (hy ⟨h1, h2⟩).elim
    · simp [hx]
      intro h1 h2
      exact (hx ⟨h1, h2⟩).elim
  · have h2 : nearestRound 2 = 2 := by
      have h := nearestRound_intCast 2
      norm_num at h
      exact h
    have h3 : nearestRound 3 = 3 := by
      have h := nearestRound_intCast 3
      norm_num at h
      exact h
    have h4 : nearestRound 4 = 4 := by
      have h := nearestRound_intCast 4
      norm_num at h
      exact h
    unfold nearestRow nearestValid nearestRavel
    rw [show ((2, 3, 4) : ℚ × ℚ × ℚ).1 = 2 from rfl]
    simp only [h2, h3, h4]
    decide

/-- Embeds the integral part returned by `np.modf`: truncation toward zero
(the integral part carries the sign of the input). -/
def modfIntPart (q : ℚ) : ℤ := if q < 0 then ⌈q⌉ else ⌊q⌋

/-- Embeds the fractional part returned by `np.modf`. -/
def modfFrac (q : ℚ) : ℚ := q - modfIntPart q

/-- Embeds the clamp `x[x < 0] = 0` applied to the fractional parts in
`Trilinear._getmask`. -/
def clampNeg (q : ℚ) : ℚ := if q < 0 then 0 else q

/-- The 8 trilinear corner weights of `Trilinear._getmask`, in the stacking
order of the source: v000, v100, v010, v001, v101, v011, v110, v111. -/
def triWeights (x y z : ℚ) : List ℚ :=
  [(1 - x) * (1 - y) * (1 - z),
   x * (1 - y) * (1 - z),
   (1 - x) * y * (1 - z),
   (1 - x) * (1 - y) * z,
   x * (1 - y) * z,
   (1 - x) * y * z,
   x * y * (1 - z),
   x * y * z]

/-- Row total of the trilinear operator row for one vertex: the CSR
constructor sums duplicate indices, so the row total is the sum of the 8
emitted weights built from the clamped `np.modf` fractions. -/
def trilinearRowSum (c : ℚ × ℚ × ℚ) : ℚ :=
  (triWeights (clampNeg (modfFrac c.1)) (clampNeg (modfFrac c.2.1))
    (clampNeg (modfFrac c.2.2))).sum

/-- Embeds a floating-point division: dividing by zero yields a non-finite
value, embedded as `none`. -/
def fdiv (a b : ℚ) : Option ℚ := if b = 0 then none else some (a / b)

/-- Embeds the in-place renormalization `vals /= vals.sum()` of
`Lanczos._getmask` and the per-row division
`mask.data[...] /= mask[i].sum()` of `Polyhedral._getmask`: every stored
entry of the row is divided by the row total, with no guard on the total. -/
def renormRow (vals : List ℚ) : List (Option ℚ) :=
  vals.map (fun v => fdiv v vals.sum)

/-- Dividing every element by a constant divides the sum. -/
theorem sum_map_div (l : List ℚ) (s : ℚ) :
    (l.map (fun v => v / s)).sum = l.sum / s := by
  induction l with
  | nil => simp
  | cons a t ih => simp [ih, add_div]

/-- C2: the 8 trilinear corner weights always total exactly 1 (they are the
products of `f` or `1 - f` per axis), so every trilinear row sums to 1; and
the renormalized Lanczos row sums to 1 whenever its pre-normalization total
is nonzero, with every renormalized entry finite. -/
theorem trilinear_lanczos_row_sums_to_one (c : ℚ × ℚ × ℚ) (vals : List ℚ)
    (h : vals.sum ≠ 0) :
    trilinearRowSum c = 1 ∧
    ((renormRow vals).map (fun o => o.getD 0)).sum = 1 ∧
    ∀ o ∈ renormRow vals, o.isSome := by
  refine ⟨?_, ?_, ?_⟩
  · unfold trilinearRowSum triWeights
    simp only [List.sum_cons, List.sum_nil]
    ring
  · have hmap : (renormRow vals).map (fun o => o.getD 0) =
        vals.map (fun v => v / vals.sum) := by
      simp [renormRow, fdiv, h, List.map_map, Function.comp]
    rw [hmap, sum_map_div, div_self h]
  · intro o ho
    simp only [renormRow, fdiv, if_neg h, List.mem_map] at ho
    obtain ⟨a, _, rfl⟩ := ho
    rfl

/-- Witness for C2 at a concrete vertex and a concrete Lanczos row. -/
theorem trilinear_lanczos_row_sums_to_one_witness :
    trilinearRowSum (1 / 3, 1 / 2, 5 / 4) = 1 ∧
    ((renormRow [2]).map (fun o => o.getD 0)).sum = 1 ∧
    ∀ o ∈ renormRow [2], o.isSome :=
  trilinear_lanczos_row_sums_to_one (1 / 3, 1 / 2, 5 / 4) [2] (by simp)

/-- C9: the renormalization is not guarded against a zero row total.  On a
row whose entries total zero, the source divides by zero and every stored
entry becomes non-finite rather than the row being left all-zero. -/
theorem renorm_zero_sum_unguarded : renormRow [1, -1] = [none, none] := by
  have hsum : ([1, -1] : List ℚ).sum = 0 := by norm_num
  simp [renormRow, fdiv, hsum]

/-- Compressed sparse row matrix contents, as persisted by the mapper cache:
values, column indices, row pointers and shape. -/
structure CSRMat where
  data : List ℚ
  indices : List Nat
  indptr : List Nat
  shape : Nat × Nat
deriving DecidableEq, Repr

/-- The cache archive written by `Mapper._savecache`: 8 named fields, four
per hemisphere. -/
structure CacheArchive where
  left_data : List ℚ
  left_indices : List Nat
  left_indptr : List Nat
  left_shape : Nat × Nat
  right_data : List ℚ
  right_indices : List Nat
  right_indptr : List Nat
  right_shape : Nat × Nat
deriving DecidableEq, Repr

/-- Embeds `Mapper._savecache`: store each operator's data, indices, indptr
and shape under its hemisphere-prefixed field name. -/
def savecache (left right : CSRMat) : CacheArchive :=
  ⟨left.data, left.indices, left.indptr, left.shape,
   right.data, right.indices, right.indptr, right.shape⟩

/-- Embeds the cache-load path of `Mapper.__init__`: rebuild each hemisphere
CSR matrix from its `(data, indices, indptr)` triple and stored shape. -/
def loadcache (npz : CacheArchive) : CSRMat × CSRMat :=
  (⟨npz.left_data, npz.left_indices, npz.left_indptr, npz.left_shape⟩,
   ⟨npz.right_data, npz.right_indices, npz.right_indptr, npz.right_shape⟩)

/-- C4: saving any pair of hemisphere operators and loading the archive back
reconstructs both operators exactly, values, indices, row pointers and
shapes alike. -/
theorem cache_roundtrip_exact (l r : CSRMat) : loadcache (savecache l r) = (l, r) := rfl

/-- Outcome of the cache decision at mapper construction. -/
inductive CacheAction where
  | reuse
  | rebuild
deriving DecidableEq, Repr

/-- Embeds the construction-time cache decision of `Mapper.__init__`: a
missing archive raises inside `np.load` and is caught, a forced recache or a
cache file older than the transform file raises `IOError` and is caught, and
every caught path falls through to `_recache`; only a present, fresh archive
with no force flag is reused. -/
def constructAction (archiveExists recache : Bool) (cacheMtime xfmMtime : ℤ) : CacheAction :=
  if archiveExists = false then CacheAction.rebuild
  else if recache || decide (cacheMtime < xfmMtime) then CacheAction.rebuild
  else CacheAction.reuse

/-- C5: with the force flag off, construction reuses the cached archive
exactly when it exists and its modification time is not older than the
transform file; in every other case it silently rebuilds (the decision
has no failing outcome). -/
theorem cache_reuse_iff_fresh (ex : Bool) (cm xm : ℤ) :
    (constructAction ex false cm xm = CacheAction.reuse ↔ ex = true ∧ xm ≤ cm) ∧
    (constructAction ex false cm xm = CacheAction.rebuild ↔ ¬(ex = true ∧ xm ≤ cm)) := by
  cases ex <;> constructor <;> simp [constructAction]

/-- Embeds the branch test `if self.nverts in data.shape:` of
`Mapper.__call__`: true when any axis of the shape equals `nverts`, not only
the trailing one. -/
def vertexSpaceBranch (shape : List Nat) (nverts : Nat) : Bool :=
  shape.contains nverts

/-- Embeds the split `data[..., :llen], data[..., llen:]` of
`Mapper.__call__` along the trailing axis, in the vertex-space branch with
no `idxmap` configured. -/
def vertexSplit (row : List ℚ) (llen : Nat) : List ℚ × List ℚ :=
  (row.take llen, row.drop llen)

/-- C6 counterexample: an input of shape `(4, 2)` with `nverts = 4` is routed
to the vertex-space branch even though its trailing axis is 2, not 4, so the
vertex-space treatment is not reserved to inputs whose trailing axis equals
`nverts`. -/
theorem vertex_branch_not_only_trailing :
    vertexSpaceBranch [4, 2] 4 = true ∧ [4, 2].getLast? = some 2 ∧ (2 : Nat) ≠ 4 := by
  refine ⟨by decide, by decide, by decide⟩

/-- C6 amended: an input whose trailing axis equals `nverts` is routed to the
vertex-space branch (because `nverts` then occurs in its shape) and, with no
`idxmap`, the returned pair is the exact unmodified split of the trailing
axis at the left-hemisphere vertex count. -/
theorem vertex_passthrough_amended (dims : List Nat) (nverts llen : Nat)
    (row : List ℚ) (h : row.length = nverts) :
    vertexSpaceBranch (dims ++ [row.length]) nverts = true ∧
    (vertexSplit row llen).1 ++ (vertexSplit row llen).2 = row := by
  constructor
  · subst h
    simp [vertexSpaceBranch]
  · exact List.take_append_drop llen row

/-- Witness for the amended C6 at a concrete shape and data row. -/
theorem vertex_passthrough_witness :
    vertexSpaceBranch ([] ++ [([5, 7] : List ℚ).length]) 2 = true ∧
    (vertexSplit [5, 7] 1).1 ++ (vertexSplit [5, 7] 1).2 = [5, 7] :=
  vertex_passthrough_amended [] 2 1 [5, 7] (by simp)

/-- Embeds `verts.max()` on a nonnegative index array. -/
def listMaxN (l : List Nat) : Nat := l.foldr max 0

/-- Boolean indicator vector of length `n`, true at the listed indices:
the effect of `left[indices] = True` on a zero-initialized array. -/
def indicatorVec (n : Nat) (idxs : List Nat) : List Bool :=
  (List.range n).map (fun i => idxs.contains i)

/-- Outcome of the input-decoding stage of `Mapper.backwards`: either the
input arrays are used directly as per-hemisphere data, or they are index
arrays converted to boolean indicators. -/
inductive BackwardsDecode where
  | direct (l r : List Nat)
  | indicator (l r : List Bool)
deriving DecidableEq, Repr

/-- Embeds the two-array branch of `Mapper.backwards`: a first array of
left-hemisphere length is used directly, otherwise a first array whose
maximum is below the left count becomes an indicator pair, and anything else
raises `ValueError`. -/
def backwardsPair (v0 v1 : List Nat) (llen rlen : Nat) :
    Except Unit BackwardsDecode :=
  if v0.length = llen then Except.ok (BackwardsDecode.direct v0 v1)
  else if listMaxN v0 < llen then
    Except.ok (BackwardsDecode.indicator (indicatorVec llen v0) (indicatorVec rlen v1))
  else Except.error ()

/-- Embeds the single-array branch of `Mapper.backwards` with
`nverts = llen + rlen`: an array of length `nverts` is split and used
directly, otherwise an array whose maximum is below `nverts` is split by
comparing each index with the left count and becomes an indicator pair, and
anything else raises `ValueError`. -/
def backwardsSingle (verts : List Nat) (llen rlen : Nat) :
    Except Unit BackwardsDecode :=
  if verts.length = llen + rlen then
    Except.ok (BackwardsDecode.direct (verts.take llen) (verts.drop llen))
  else if listMaxN verts < llen + rlen then
    Except.ok (BackwardsDecode.indicator
      (indicatorVec llen (verts.filter (fun i => decide (i < llen))))
      (indicatorVec rlen ((verts.filter (fun i => decide (llen ≤ i))).map (fun i => i - llen))))
  else Except.error ()

/-- C7: `backwards` fails on a single index array whose length is not
`nverts` and whose maximum is at or beyond `nverts`, and on a pair whose
first array has maximum at or beyond the left count while its length differs
from that count. -/
theorem backwards_invalid_inputs_error (verts v0 v1 : List Nat) (llen rlen : Nat)
    (h1 : verts.length ≠ llen + rlen) (h2 : llen + rlen ≤ listMaxN verts)
    (h3 : v0.length ≠ llen) (h4 : llen ≤ listMaxN v0) :
    backwardsSingle verts llen rlen = Except.error () ∧
    backwardsPair v0 v1 llen rlen = Except.error () := by
  constructor
  · unfold backwardsSingle
    rw [if_neg h1, if_neg (by omega)]
  · unfold backwardsPair
    rw [if_neg h3, if_neg (by omega)]

/-- Witness for C7: index 5 in a 2+2-vertex mapper, and a pair whose first
array holds index 3 against a left count of 2. -/
theorem backwards_invalid_inputs_error_witness :
    backwardsSingle [5] 2 2 = Except.error () ∧
    backwardsPair [3] [0] 2 2 = Except.error () :=
  backwards_invalid_inputs_error [5] [3] [0] 2 2 (by decide) (by decide)
    (by decide) (by decide)

/-- Embeds the keyword piece of the cache key built in `Mapper.__init__`:
`'_'.join(['%s%s' % (k, str(v)) for k, v in list(kwargs.items())])`, the
items arriving in the insertion order of the keyword mapping. -/
def cacheKwds (kwargs : List (String × String)) : String :=
  String.intercalate "_" (kwargs.map (fun kv => kv.1 ++ kv.2))

/-- Embeds the projection identifier `ptype` of `Mapper.__init__`: the
lowercased kernel class name, extended with the joined keyword string when
that string is nonempty. -/
def cachePtype (name : String) (kwargs : List (String × String)) : String :=
  if 0 < (cacheKwds kwargs).length then name ++ "_" ++ cacheKwds kwargs else name

/-- C8: the cache key is not independent of parameter insertion order: the
same Lanczos parameter set supplied in two orders yields two different cache
identities, because the source joins the keyword items without sorting. -/
theorem cache_key_depends_on_order :
    cachePtype "lanczos" [("window", "3"), ("renorm", "True")] ≠
      cachePtype "lanczos" [("renorm", "True"), ("window", "3")] := by
  decide

/-- Observable effects of `Lanczos._getmask` besides the returned matrix. -/
inductive KernelEffect where
  | debuggerBreakpoint
  | progressPrint (v : Nat)
deriving DecidableEq, Repr

/-- Embeds the effect trace of `Lanczos._getmask`: `import ipdb` followed by
`ipdb.set_trace()` runs before the vertex loop, and the loop prints `v` for
every vertex index divisible by 1000 (`if not v % 1000`). -/
def lanczosEffects (nvertices : Nat) : List KernelEffect :=
  KernelEffect.debuggerBreakpoint ::
    ((List.range nvertices).filterMap
      (fun v => if v % 1000 = 0 then some (KernelEffect.progressPrint v) else none))

/-- C10: the Lanczos kernel suspends into an interactive debugger on every
invocation, here shown for a one-vertex hemisphere: the breakpoint effect is
always in its trace, ahead of any ordinary progress output. -/
theorem lanczos_hits_debugger :
    KernelEffect.debuggerBreakpoint ∈ lanczosEffects 1 :=
  List.mem_cons_self _ _

set_option linter.unusedVariables false in
/-- Embeds `Polyhedral._getmask`.  Its first statement,
`mask = sparse.csr_matrix((len(wpts), np.prod(self.shape)))`, reads the name
`wpts`, which is bound nowhere in the method (the parameters are `pia`, `wm`
and `polys`, and no enclosing scope defines it), so every invocation raises
`NameError` before any polyhedron or voxel is processed. -/
def Polyhedral_getmask (g : Grid3) (pia wm : List (ℚ × ℚ × ℚ))
    (polys : List (Nat × Nat × Nat)) : Except String (List (List ℚ)) :=
  Except.error "NameError: name wpts is not defined"

/-- C3: evaluating `Polyhedral._getmask` at a concrete input, a one-vertex
surface pair in a `(10, 10, 10)` grid, produces the `NameError` failure
instead of an operator: none of the enumeration, clipping, weighting or
renormalization the claim describes is ever reached. -/
theorem polyhedral_getmask_raises_name_error :
    Polyhedral_getmask ⟨10, 10, 10⟩ [(0, 0, 0)] [(1, 1, 1)] [] =
      Except.error "NameError: name wpts is not defined" := rfl
